import Mathlib

/-!
Verification model of the receipt parser in `src/lib/ocr.js` of the
Warranty-Deck repository.

The parser (`parseReceiptData` and its helper functions) is a pure text
transformation; we embed it shallowly:

* JS strings are modelled as `String` / `List Char`; `String.toLowerCase`
  is modelled as ASCII case folding (`Char.toLower`), `.length` and
  character classes as code-point operations.
* JS numbers are modelled as exact rationals `ℚ` (every arithmetic
  operation performed by the parser is modelled exactly).
* The concrete regular expressions appearing in the source are hand
  compiled to backtracking matchers with JS semantics (leftmost match,
  greedy quantifiers with backtracking, ordered alternation).
* The ambient clock (`Date.now()`, `new Date().toISOString()`) is passed
  in explicitly as the parameters `now` and `today`; the JS `Date`
  calendar arithmetic (month/day rollover, the 0..99 → 1900+y year rule,
  `toISOString`) is modelled with proleptic-Gregorian civil-date
  arithmetic, taking the runtime's local timezone to be UTC.
-/

namespace Ocr

/-- The JS whitespace set used by `String.prototype.trim` and by `\s`
(WhiteSpace ∪ LineTerminator per the ECMAScript spec). -/
def wsChars : List Char :=
  [ ' ', '\t', '\n', '\x0b', '\x0c', '\r',
    '\u00A0', '\u1680',
    '\u2000', '\u2001', '\u2002', '\u2003', '\u2004', '\u2005',
    '\u2006', '\u2007', '\u2008', '\u2009', '\u200A',
    '\u2028', '\u2029', '\u202F', '\u205F', '\u3000', '\uFEFF' ]

/-- `c` is a JS whitespace character. -/
def isJsWs (c : Char) : Bool := wsChars.contains c

/-- JS `String.prototype.trim`. -/
def jsTrim (l : List Char) : List Char :=
  ((l.dropWhile isJsWs).reverse.dropWhile isJsWs).reverse

/-- JS `str.split('\n')`: the pieces between newline characters, empty
pieces included. -/
def splitNl : List Char → List (List Char)
  | [] => [[]]
  | c :: t =>
    if c = '\n' then [] :: splitNl t
    else
      match splitNl t with
      | p :: ps => (c :: p) :: ps
      | [] => [[c]]

/-- Line normalization of `parseReceiptData` (ocr.js line 35):
`ocrText.split('\n').map(line => line.trim()).filter(line => line.length > 0)`. -/
def linesOf (s : String) : List (List Char) :=
  ((splitNl s.data).map jsTrim).filter (fun l => 0 < l.length)

/-- Model of JS `toLowerCase` (ASCII case folding). -/
def lowerL (l : List Char) : List Char := l.map Char.toLower

/-- `pat` occurs at the start of `l`. -/
def startsWithL : List Char → List Char → Bool
  | [], _ => true
  | _ :: _, [] => false
  | p :: ps, c :: t => p = c && startsWithL ps t

/-- `pat` occurs somewhere in `l` (JS `str.includes(pat)` / regex `test`
with a literal pattern). -/
def infixOfL : List Char → List Char → Bool
  | pat, [] => pat.isEmpty
  | pat, l@(_ :: t) => startsWithL pat l || infixOfL pat t

/-- Substring containment with a string-literal pattern. -/
def strInfix (pat : String) (l : List Char) : Bool := infixOfL pat.data l

/-- Numeric value of a list of decimal digit characters. -/
def natOfDigits (l : List Char) : Nat :=
  l.foldl (fun n c => n * 10 + (c.toNat - 48)) 0

/-- JS `parseFloat` on the strings produced by the parser's regex
captures (shapes `digits`, `digits.`, `digits.digits`, `.digits`). -/
def jsParseFloat (l : List Char) : ℚ :=
  let ip := l.takeWhile Char.isDigit
  let r := l.drop ip.length
  match r with
  | '.' :: r2 =>
    let fp := r2.takeWhile Char.isDigit
    mkRat (natOfDigits ip * 10 ^ fp.length + natOfDigits fp) (10 ^ fp.length)
  | _ => mkRat (natOfDigits ip) 1

/-- `parseFloat(a.replace(/,/g, ''))` (ocr.js lines 188, 276, 296). -/
def moneyVal (tok : List Char) : ℚ :=
  jsParseFloat (tok.filter (fun c => c ≠ ','))

/-- Character class `[\d,]`. -/
def digitOrComma (c : Char) : Bool := c.isDigit || c = ','

/-- Backtracking tail of the money regex `[\d,]+\.\d{2}`: `revRun` is the
(reversed) part of the `[\d,]+` run currently consumed, `rest` what
follows.  Greedy: the full run is tried first, then shortened from the
right one character at a time.  On success returns the matched token and
the remaining input. -/
def moneyAtAux : List Char → List Char → Option (List Char × List Char)
  | [], _ => none
  | c :: rs, rest =>
    match rest with
    | '.' :: a :: b :: t =>
      if a.isDigit && b.isDigit then
        some ((c :: rs).reverse ++ ['.', a, b], t)
      else moneyAtAux rs (c :: rest)
    | _ => moneyAtAux rs (c :: rest)

/-- Match `/[\d,]+\.\d{2}/` anchored at the start of `l`. -/
def moneyAt (l : List Char) : Option (List Char × List Char) :=
  let run := l.takeWhile digitOrComma
  moneyAtAux run.reverse (l.drop run.length)

/-- All matches of the global regex `/[\d,]+\.\d{2}/g` (ocr.js line 187):
repeated leftmost match, resuming after each match.  `fuel` bounds the
recursion; `moneyAll` supplies `l.length`, which is always sufficient
since every step consumes at least one character. -/
def moneyAllF : Nat → List Char → List (List Char)
  | 0, _ => []
  | _, [] => []
  | fuel + 1, l@(_ :: t) =>
    match moneyAt l with
    | some (tok, rest) => tok :: moneyAllF fuel rest
    | none => moneyAllF fuel t

/-- `line.match(/[\d,]+\.\d{2}/g)` returning the list of matched tokens. -/
def moneyAll (l : List Char) : List (List Char) := moneyAllF l.length l

/-- Backtracking tail of `([\d,]+\.\d{2})\s*$`: like `moneyAtAux` but the
match must be followed only by whitespace up to the end of the line. -/
def moneyEndAtAux : List Char → List Char → Option (List Char)
  | [], _ => none
  | c :: rs, rest =>
    match rest with
    | '.' :: a :: b :: t =>
      if a.isDigit && b.isDigit && t.all isJsWs then
        some ((c :: rs).reverse ++ ['.', a, b])
      else moneyEndAtAux rs (c :: rest)
    | _ => moneyEndAtAux rs (c :: rest)

/-- Match `([\d,]+\.\d{2})\s*$` anchored at the start of `l` (the rest of
the line after the money token must be whitespace). -/
def moneyEndAt (l : List Char) : Option (List Char) :=
  let run := l.takeWhile digitOrComma
  moneyEndAtAux run.reverse (l.drop run.length)

/-- `line.match(/([\d,]+\.\d{2})\s*$/)` (ocr.js line 273): leftmost
position whose suffix matches, returning the captured token. -/
def findMoneyEnd : List Char → Option (List Char)
  | [] => none
  | l@(_ :: t) =>
    match moneyEndAt l with
    | some tok => some tok
    | none => findMoneyEnd t

/-- Full-string test `/^[\d,]+\.\d{2}$/` (ocr.js line 295). -/
def fullMoneyTok (l : List Char) : Bool :=
  match l.reverse with
  | b :: a :: '.' :: revA =>
    a.isDigit && b.isDigit && !revA.isEmpty && revA.all digitOrComma
  | _ => false

/-- Match of `/(\d+\.?\d*)x?/i` anchored at the start of `l`, returning the
capture.  All parts after the leading `\d+` are optional and nothing
follows the pattern, so the pure greedy path is the JS result; the match
succeeds exactly when `l` starts with a digit. -/
def qtyAt (l : List Char) : Option (List Char) :=
  match l with
  | c :: _ =>
    if c.isDigit then
      let ip := l.takeWhile Char.isDigit
      match l.drop ip.length with
      | '.' :: r2 => some (ip ++ '.' :: r2.takeWhile Char.isDigit)
      | _ => some ip
    else none
  | [] => none

/-- `part.match(/(\d+\.?\d*)x?/i)` (ocr.js line 292): leftmost match. -/
def qtyFind : List Char → Option (List Char)
  | [] => none
  | l@(_ :: t) =>
    match qtyAt l with
    | some cap => some cap
    | none => qtyFind t

/-- JS `line.split(/\s{2,}/)` (ocr.js line 279): pieces separated by runs
of 2 or more whitespace characters; a single whitespace character stays
inside its piece.  `cur` is the current piece reversed; `fuel` (initially
the length of the remaining input, always sufficient) bounds the
recursion. -/
def splitWs2F : Nat → List Char → List Char → List (List Char)
  | _, cur, [] => [cur.reverse]
  | 0, cur, rest => [cur.reverse ++ rest]
  | f + 1, cur, c :: t =>
    if isJsWs c then
      let run1 := t.takeWhile isJsWs
      if run1.isEmpty then splitWs2F f (c :: cur) t
      else cur.reverse :: splitWs2F f [] (t.drop run1.length)
    else splitWs2F f (c :: cur) t

def splitWs2 (l : List Char) : List (List Char) := splitWs2F l.length [] l

/-- JS `line.split(/\s+/)` (ocr.js line 281): pieces separated by runs of
1 or more whitespace characters (a leading run yields a leading empty
piece, as in JS). -/
def splitWs1F : Nat → List Char → List Char → List (List Char)
  | _, cur, [] => [cur.reverse]
  | 0, cur, rest => [cur.reverse ++ rest]
  | f + 1, cur, c :: t =>
    if isJsWs c then cur.reverse :: splitWs1F f [] (t.dropWhile isJsWs)
    else splitWs1F f (c :: cur) t

def splitWs1 (l : List Char) : List (List Char) := splitWs1F l.length [] l

/-! ### JS `Date` model

`new Date(year, month, day)` normalizes out-of-range month/day values by
calendar rollover, maps constructor years 0..99 to 1900+year, and
`toISOString().split('T')[0]` renders the (UTC-modelled) civil date.  Day
arithmetic uses the standard proleptic-Gregorian civil-from-days /
days-from-civil algorithms. -/

/-- Days since 1970-01-01 of the civil date `y-m-d` (`m` in 1..12). -/
def daysFromCivil (y m d : Int) : Int :=
  let y' := y - (if m ≤ 2 then 1 else 0)
  let era := Int.fdiv y' 400
  let yoe := y' - era * 400
  let doy := Int.fdiv (153 * (m + (if m > 2 then -3 else 9)) + 2) 5 + d - 1
  let doe := yoe * 365 + Int.fdiv yoe 4 - Int.fdiv yoe 100 + doy
  era * 146097 + doe - 719468

/-- Civil date `(y, m, d)` of a count of days since 1970-01-01. -/
def civilFromDays (z0 : Int) : Int × Int × Int :=
  let z := z0 + 719468
  let era := Int.fdiv z 146097
  let doe := z - era * 146097
  let yoe := Int.fdiv (doe - Int.fdiv doe 1460 + Int.fdiv doe 36524 - Int.fdiv doe 146096) 365
  let y := yoe + era * 400
  let doy := doe - (365 * yoe + Int.fdiv yoe 4 - Int.fdiv yoe 100)
  let mp := Int.fdiv (5 * doy + 2) 153
  let d := doy - Int.fdiv (153 * mp + 2) 5 + 1
  let m := mp + (if mp < 10 then 3 else -9)
  (y + (if m ≤ 2 then 1 else 0), m, d)

/-- `new Date(y, mon, d)` (`mon` 0-based, arbitrary integers) as a count
of days since the epoch: applies the 0..99 → 1900+y constructor rule and
rolls excess months/days over. -/
def jsMakeDate (y mon d : Int) : Int :=
  let y1 := if 0 ≤ y && y ≤ 99 then y + 1900 else y
  let months := y1 * 12 + mon
  let yy := Int.fdiv months 12
  let mm := Int.emod months 12
  daysFromCivil yy (mm + 1) 1 + (d - 1)

/-- `!isNaN(date.getTime())`: the JS time value must not exceed
8.64e15 ms, i.e. 1e8 days, from the epoch. -/
def jsDateValid (days : Int) : Bool := days.natAbs ≤ 100000000

/-- Decimal rendering of `n` left-padded with zeros to width `w`. -/
def padNat (w n : Nat) : String :=
  let s := toString n
  String.mk (List.replicate (w - s.length) '0') ++ s

/-- `date.toISOString().split('T')[0]` for a day count (UTC model):
`YYYY-MM-DD`, with the expanded-year form outside 0..9999. -/
def isoDate (days : Int) : String :=
  let c := civilFromDays days
  let y := c.1
  let ys :=
    if 0 ≤ y && y ≤ 9999 then padNat 4 y.toNat
    else (if y < 0 then "-" else "+") ++ padNat 6 y.natAbs
  ys ++ "-" ++ padNat 2 c.2.1.toNat ++ "-" ++ padNat 2 c.2.2.toNat

/-- `new Date(y, mon, d)` followed by the validity check and ISO
rendering of ocr.js lines 145-162. -/
def jsDateIso (y mon d : Int) : Option String :=
  let days := jsMakeDate y mon d
  if jsDateValid days then some (isoDate days) else none

/-! ### Date regex matchers (ocr.js lines 128-132) -/

/-- Candidate matches of `\d{lo,hi}` at the start of `l`, greedy
(longest first), each with the remaining input. -/
def digitTakes (lo hi : Nat) (l : List Char) : List (List Char × List Char) :=
  let run := l.takeWhile Char.isDigit
  let n := min run.length hi
  ((List.range' lo (n + 1 - lo)).reverse).map (fun k => (l.take k, l.drop k))

/-- Character class `[/\-]`. -/
def isDateSep (c : Char) : Bool := c = '/' || c = '-'

/-- Numeric date match: the full matched text `m0` and the three
captured groups. -/
structure NumDateMatch where
  m0 : List Char
  m1 : List Char
  m2 : List Char
  m3 : List Char
deriving Repr, DecidableEq

/-- Match `(\d{1,2})[/\-](\d{1,2})[/\-](\d{2,4})` at the start of `l`,
with the greedy/backtracking order of the JS engine. -/
def pat1At (l : List Char) : Option NumDateMatch :=
  (digitTakes 1 2 l).findSome? fun (t1, r1) =>
    match r1 with
    | s1 :: r2 =>
      if isDateSep s1 then
        (digitTakes 1 2 r2).findSome? fun (t2, r3) =>
          match r3 with
          | s2 :: r4 =>
            if isDateSep s2 then
              (digitTakes 2 4 r4).findSome? fun (t3, _) =>
                some ⟨t1 ++ s1 :: t2 ++ s2 :: t3, t1, t2, t3⟩
            else none
          | [] => none
      else none
    | [] => none

/-- Match `(\d{4})[/\-](\d{1,2})[/\-](\d{1,2})` at the start of `l`. -/
def pat2At (l : List Char) : Option NumDateMatch :=
  (digitTakes 4 4 l).findSome? fun (t1, r1) =>
    match r1 with
    | s1 :: r2 =>
      if isDateSep s1 then
        (digitTakes 1 2 r2).findSome? fun (t2, r3) =>
          match r3 with
          | s2 :: r4 =>
            if isDateSep s2 then
              (digitTakes 1 2 r4).findSome? fun (t3, _) =>
                some ⟨t1 ++ s1 :: t2 ++ s2 :: t3, t1, t2, t3⟩
            else none
          | [] => none
      else none
    | [] => none

/-- The fixed month-abbreviation table (ocr.js line 140). -/
def monthNames : List String :=
  ["Jan", "Feb", "Mar", "Apr", "May", "Jun", "Jul", "Aug", "Sep", "Oct", "Nov", "Dec"]

/-- Case-insensitive match of one of the month abbreviations at the start
of `l` (ordered alternation), returning the three matched characters. -/
def monthAltAt (l : List Char) : Option (List Char) :=
  match l with
  | a :: b :: c :: _ =>
    if monthNames.any (fun m => lowerL m.data = lowerL [a, b, c]) then some [a, b, c]
    else none
  | _ => none

/-- Match `(\d{1,2})\s+(Jan|…|Dec)[a-z]*\s+(\d{2,4})` (case-insensitive)
at the start of `l`.  The `\s+` and `[a-z]*` quantifiers are taken
maximally: shorter choices always leave a character that the following
element rejects (the alternation and `\d` never match whitespace, `\s`
never matches a letter), so no backtracking into them can succeed. -/
def pat3At (l : List Char) : Option (List Char × List Char × List Char) :=
  (digitTakes 1 2 l).findSome? fun (t1, r1) =>
    let ws1 := r1.takeWhile isJsWs
    if ws1.isEmpty then none
    else
      let r2 := r1.drop ws1.length
      match monthAltAt r2 with
      | none => none
      | some mon =>
        let r3 := (r2.drop 3).dropWhile (fun c => c.isAlpha)
        let ws2 := r3.takeWhile isJsWs
        if ws2.isEmpty then none
        else
          (digitTakes 2 4 (r3.drop ws2.length)).findSome? fun (t3, _) =>
            some (t1, mon, t3)

/-- Leftmost match of a start-anchored matcher. -/
def findFirst (p : List Char → Option α) : List Char → Option α
  | [] => none
  | l@(_ :: t) =>
    match p l with
    | some r => some r
    | none => findFirst p t

/-- The handler for a numeric date match (ocr.js lines 150-163): note the
branch condition tests the *full match* `match[0]` with `startsWith('20')`,
and month/year arithmetic is performed on parsed integers. -/
def numericHandler (m : NumDateMatch) : Option String :=
  if startsWithL "20".data m.m0 || m.m1.length = 4 then
    jsDateIso (natOfDigits m.m1) ((natOfDigits m.m2 : Int) - 1) (natOfDigits m.m3)
  else
    jsDateIso ((natOfDigits m.m3 : Int) + (if natOfDigits m.m3 < 100 then 2000 else 0))
      ((natOfDigits m.m1 : Int) - 1) (natOfDigits m.m2)

/-- The handler for a month-name match (ocr.js lines 139-148). -/
def monthHandler (m : List Char × List Char × List Char) : Option String :=
  let monthIdx := monthNames.findIdx (fun n => lowerL n.data = lowerL m.2.1)
  let year := natOfDigits m.2.2
  jsDateIso ((year : Int) + (if year < 100 then 2000 else 0)) monthIdx (natOfDigits m.1)

/-- `parseDate` (ocr.js lines 127-171): the three patterns are tried in
order against the whole text; a pattern that matches but whose constructed
date is invalid falls through to the next pattern.  Which handler runs is
decided in the source by `isNaN(match[2])`, which for these patterns is
equivalent to which pattern matched. -/
def parseDate (text : String) : Option String :=
  ((findFirst pat1At text.data).bind numericHandler).orElse fun _ =>
    ((findFirst pat2At text.data).bind numericHandler).orElse fun _ =>
      (findFirst pat3At text.data).bind monthHandler

/-! ### Receipt-number regex (ocr.js line 119)

`/(?:receipt|invoice|bill|txn|trans|order)\s*(?:no\.?|num(?:ber)?|id)?\s*[:#\-]?\s*([A-Z0-9][A-Z0-9\-]+)/i`
compiled to a continuation-passing backtracking matcher.  Every element
takes the remaining input and a continuation returning the final capture. -/

/-- A continuation from remaining input to the final capture. -/
abbrev RxK := List Char → Option (List Char)

/-- Case-insensitive literal. -/
def litCI : List Char → List Char → RxK → Option (List Char)
  | [], l, k => k l
  | a :: w, c :: t, k =>
    if Char.toLower c = Char.toLower a then litCI w t k else none
  | _ :: _, [], _ => none

/-- Ordered alternation of case-insensitive literals. -/
def altCI (ws : List String) (l : List Char) (k : RxK) : Option (List Char) :=
  match ws with
  | [] => none
  | w :: rest =>
    match litCI w.data l k with
    | some r => some r
    | none => altCI rest l k

/-- `\s*`: greedy with backtracking (longest consumed run first). -/
def wsStar (l : List Char) (k : RxK) : Option (List Char) :=
  let n := (l.takeWhile isJsWs).length
  ((List.range (n + 1)).reverse).findSome? fun i => k (l.drop i)

/-- An optional single character of a class: consume it first, fall back
to the empty alternative. -/
def optChar (p : Char → Bool) (l : List Char) (k : RxK) : Option (List Char) :=
  match l with
  | c :: t =>
    if p c then
      match k t with
      | some r => some r
      | none => k l
    else k l
  | [] => k []

/-- `(?:no\.?|num(?:ber)?|id)` (ordered alternation, optional parts
greedy-first). -/
def rnWordAlt (l : List Char) (k : RxK) : Option (List Char) :=
  match litCI "no".data l (fun r => optChar (fun c => c = '.') r k) with
  | some r => some r
  | none =>
    match litCI "num".data l
        (fun r =>
          match litCI "ber".data r k with
          | some x => some x
          | none => k r) with
    | some r => some r
    | none => litCI "id".data l k

/-- Optional occurrence of `rnWordAlt`. -/
def rnWordOpt (l : List Char) (k : RxK) : Option (List Char) :=
  match rnWordAlt l k with
  | some r => some r
  | none => k l

/-- Character class `[A-Z0-9]` under the `/i` flag. -/
def isAlnum (c : Char) : Bool := c.isAlpha || c.isDigit

/-- Character class `[A-Z0-9\-]` under the `/i` flag. -/
def isAlnumDash (c : Char) : Bool := isAlnum c || c = '-'

/-- The final capture `([A-Z0-9][A-Z0-9\-]+)`: nothing follows it, so the
greedy run is the match; it needs at least two characters. -/
def rnCapture (l : List Char) : Option (List Char) :=
  match l with
  | c :: t =>
    if isAlnum c then
      let run := t.takeWhile isAlnumDash
      if run.isEmpty then none else some (c :: run)
    else none
  | [] => none

/-- The whole receipt-number pattern anchored at the start of `l`. -/
def rnAt (l : List Char) : Option (List Char) :=
  altCI ["receipt", "invoice", "bill", "txn", "trans", "order"] l fun r1 =>
    wsStar r1 fun r2 =>
      rnWordOpt r2 fun r3 =>
        wsStar r3 fun r4 =>
          optChar (fun c => c = ':' || c = '#' || c = '-') r4 fun r5 =>
            wsStar r5 rnCapture

/-- `extractReceiptNumber` (ocr.js lines 117-122): leftmost match,
returning capture group 1. -/
def extractReceiptNumber (text : String) : Option String :=
  (findFirst rnAt text.data).map String.mk

/-! ### Payment method and currency (ocr.js lines 216-252) -/

/-- Match `\*{4,}\d{4}` at the start of `l`: a maximal run of at least 4
asterisks followed by 4 digits (shrinking the greedy run cannot help,
since the following element would then face an asterisk). -/
def cardAt (l : List Char) : Option (List Char) :=
  let stars := l.takeWhile (fun c => c = '*')
  if stars.length < 4 then none
  else
    match l.drop stars.length with
    | a :: b :: c :: d :: _ =>
      if a.isDigit && b.isDigit && c.isDigit && d.isDigit then
        some (stars ++ [a, b, c, d])
      else none
    | _ => none

/-- The ordered payment-method keyword list (ocr.js line 218). -/
def paymentMethods : List String :=
  ["visa", "mastercard", "amex", "rupay", "upi", "cash", "debit", "credit", "card"]

/-- Model of JS `toUpperCase` (ASCII case folding). -/
def upperL (l : List Char) : List Char := l.map Char.toUpper

/-- `extractPaymentMethod` (ocr.js lines 216-231). -/
def extractPaymentMethod (text : String) : Option String :=
  let textLower := lowerL text.data
  match paymentMethods.find? (fun m => infixOfL m.data textLower) with
  | none => none
  | some m =>
    match findFirst cardAt text.data with
    | some card => some (String.mk (upperL m.data) ++ " " ++ String.mk card)
    | none => some (String.mk (upperL m.data))

/-- The currency symbol table in insertion order (ocr.js lines 237-244). -/
def currencySymbols : List (Char × String) :=
  [('$', "USD"), ('€', "EUR"), ('£', "GBP"), ('₹', "INR"), ('¥', "JPY"), ('₱', "PHP")]

/-- `inferCurrency` (ocr.js lines 236-252). -/
def inferCurrency (text : String) : Option String :=
  (currencySymbols.find? (fun p => text.data.contains p.1)).map (·.2)

/-! ### Store info (ocr.js lines 76-112) -/

/-- The store-keyword list (ocr.js line 81). -/
def storeKeywords : List String :=
  ["store", "mart", "shop", "supermarket", "electronics", "retail", "market"]

/-- The URL test `/www\.|\.com|\.org|\.net|https?:\/\//i.test(line)`:
case-insensitive containment of one of the literal alternatives. -/
def isUrlLine (l : List Char) : Bool :=
  let ll := lowerL l
  strInfix "www." ll || strInfix ".com" ll || strInfix ".org" ll ||
    strInfix ".net" ll || strInfix "http://" ll || strInfix "https://" ll

/-- Loop state of `extractStoreInfo`. -/
structure StoreAcc where
  storeName : Option (List Char)
  addressParts : List (List Char)
  website : Option (List Char)
deriving Repr, DecidableEq

/-- One iteration of the `extractStoreInfo` loop (ocr.js lines 84-105). -/
def storeStep (st : StoreAcc) (line : List Char) : StoreAcc :=
  if line.isEmpty then st
  else if isUrlLine line then { st with website := some line }
  else
    let upperRatio : ℚ :=
      mkRat (line.countP (fun c => c.isUpper)) (max line.length 1)
    let hasKeyword := storeKeywords.any (fun kw => strInfix kw (lowerL line))
    if (decide (upperRatio > mkRat 1 2) || hasKeyword) && st.storeName.isNone then
      { st with storeName := some line }
    else if st.storeName.isSome && st.addressParts.length < 3 then
      { st with addressParts := st.addressParts ++ [line] }
    else st

/-- The result record of `extractStoreInfo` (ocr.js lines 107-111). -/
structure StoreInfo where
  store_name : Option String
  address : Option String
  website : Option String
deriving Repr, DecidableEq

/-- `extractStoreInfo`: fold the loop over the first 10 lines, then join
up to 3 address lines with `", "`. -/
def extractStoreInfo (lines : List (List Char)) : StoreInfo :=
  let st := (lines.take 10).foldl storeStep ⟨none, [], none⟩
  { store_name := st.storeName.map String.mk
    address :=
      if st.addressParts.isEmpty then none
      else some (String.mk (List.intercalate ", ".data st.addressParts))
    website := st.website.map String.mk }

/-! ### Totals (ocr.js lines 176-211) -/

/-- `lines.slice(-15)`. -/
def lastN (n : Nat) (l : List (List Char)) : List (List Char) := l.drop (l.length - n)

/-- `/tax|vat|gst/.test(lineLower)` (ocr.js line 190). -/
def isTaxLine (l : List Char) : Bool :=
  strInfix "tax" (lowerL l) || strInfix "vat" (lowerL l) || strInfix "gst" (lowerL l)

/-- The two totals branches of ocr.js lines 194 and 198 have identical
bodies, so a line reaching them contributes a candidate exactly when this
disjunction holds: `total` without `sub`, or `grand`, or `amount`. -/
def isTotalsLine (l : List Char) : Bool :=
  (strInfix "total" (lowerL l) && !strInfix "sub" (lowerL l)) ||
    strInfix "grand" (lowerL l) || strInfix "amount" (lowerL l)

/-- The last money token of a line, as a value
(`parsedAmounts[parsedAmounts.length - 1]`). -/
def lastMoneyTok (l : List Char) : Option ℚ := ((moneyAll l).map moneyVal).getLast?

/-- One iteration of the `extractTotals` loop (ocr.js lines 184-203); the
state is the totals-candidate list and the current tax amount.  The tax
branch is tested first, so a line containing both a tax keyword and a
totals keyword never contributes a totals candidate. -/
def totalsStep (st : List ℚ × Option ℚ) (line : List Char) : List ℚ × Option ℚ :=
  if isTaxLine line then
    (st.1, match lastMoneyTok line with | some v => some v | none => st.2)
  else if isTotalsLine line then
    (match lastMoneyTok line with | some v => st.1 ++ [v] | none => st.1, st.2)
  else st

/-- `Math.max(...list)` for a nonempty list. -/
def maxList : List ℚ → ℚ
  | [] => 0
  | q :: qs => qs.foldl max q

/-- `extractTotals` (ocr.js lines 176-211). -/
def extractTotals (lines : List (List Char)) : Option ℚ × Option ℚ :=
  let st := (lastN 15 lines).foldl totalsStep ([], none)
  (if st.1.isEmpty then none else some (maxList st.1), st.2)

/-! ### Line items (ocr.js lines 257-318) -/

/-- The totals-keyword list that ends the items region (ocr.js line 261). -/
def totalsKeywords : List String :=
  ["subtotal", "total", "grand", "tax", "vat", "gst"]

/-- A line that ends the items region. -/
def hasTotalsKw (l : List Char) : Bool :=
  totalsKeywords.any (fun kw => strInfix kw (lowerL l))

/-- One parsed line item. -/
structure LineItem where
  description : String
  quantity : ℚ
  unit_price : Option ℚ
  total_price : ℚ
  serial_no : Nat
deriving Repr, DecidableEq

/-- Exact rational division in a kernel-computable form (the parser only
divides by a positive quantity; `ratDiv_eq_div` identifies it with `/`
for any nonzero divisor). -/
def ratDiv (a b : ℚ) : ℚ :=
  if b.num < 0 then mkRat (-(a.num * b.den)) (a.den * b.num.natAbs)
  else mkRat (a.num * b.den) (a.den * b.num.natAbs)

/-- The quantity / unit-price scan over the column segments after the
first (ocr.js lines 290-301): state is `(qty, unitPrice)`. -/
def partStep (totalPrice : ℚ) (st : ℚ × Option ℚ) (part : List Char) : ℚ × Option ℚ :=
  match qtyFind part with
  | some cap => (jsParseFloat cap, st.2)
  | none =>
    if fullMoneyTok part then
      let val := moneyVal part
      if st.2.isNone && val ≠ totalPrice then (st.1, some val) else st
    else st

/-- Processing of one candidate line (ocr.js lines 271-315), appending to
the accumulated item list. -/
def itemLineStep (acc : List LineItem) (line : List Char) : List LineItem :=
  match findMoneyEnd line with
  | none => acc
  | some tok =>
    let totalPrice := moneyVal tok
    let parts0 := splitWs2 line
    let parts := if parts0.length < 2 then splitWs1 line else parts0
    let description := (parts.headD [])
    let qu := (parts.drop 1).foldl (partStep totalPrice) (1, none)
    let unitPrice := if qu.2.isNone && decide (qu.1 > 0) then some (ratDiv totalPrice qu.1) else qu.2
    acc ++ [{ description := String.mk description
              quantity := qu.1
              unit_price := unitPrice
              total_price := totalPrice
              serial_no := acc.length + 1 }]

/-- `parseItems` (ocr.js lines 257-318): the items region is the prefix of
lines before the first line containing a totals keyword, and each line in
it with a trailing money token emits one item. -/
def parseItems (lines : List (List Char)) : List LineItem :=
  (lines.takeWhile (fun l => !hasTotalsKw l)).foldl itemLineStep []

/-! ### Top-level parser (ocr.js lines 34-71) -/

/-- JS `a || d` for a possibly-missing string (both `null` and the empty
string fall back to the default). -/
def jsOrStr : Option String → String → String
  | some s, d => if s = "" then d else s
  | none, d => d

/-- JS `a || d` for a possibly-missing number (both `null` and `0` fall
back to the default). -/
def jsOrNum : Option ℚ → ℚ → ℚ
  | some x, d => if x = 0 then d else x
  | none, d => d

/-- The parser's output record (ocr.js lines 58-70). -/
structure ParsedReceipt where
  store_name : String
  store_address : Option String
  store_website : Option String
  purchase_date : String
  total_amount : ℚ
  tax_amount : ℚ
  receipt_number : String
  payment_method : Option String
  currency : String
  items : List LineItem
  raw_text : String
deriving Repr, DecidableEq

/-- `parseReceiptData` (ocr.js lines 34-71).  The ambient clock is passed
explicitly: `today` models `new Date().toISOString().split('T')[0]` and
`now` models `Date.now()`. -/
def parseReceiptData (today : String) (now : Nat) (ocrText : String) : ParsedReceipt :=
  let lines := linesOf ocrText
  let storeInfo := extractStoreInfo lines
  let totals := extractTotals lines
  { store_name := jsOrStr storeInfo.store_name "Unknown Store"
    store_address := storeInfo.address
    store_website := storeInfo.website
    purchase_date := jsOrStr (parseDate ocrText) today
    total_amount := jsOrNum totals.1 0
    tax_amount := jsOrNum totals.2 0
    receipt_number := jsOrStr (extractReceiptNumber ocrText) ("REC-" ++ toString now)
    payment_method := extractPaymentMethod ocrText
    currency := jsOrStr (inferCurrency ocrText) "USD"
    items := parseItems lines
    raw_text := ocrText }

/-! ### Specification-side definitions

These follow the wording of the specification / claims, for comparison
with the code-side definitions above. -/

/-- The totals-candidate lines as the code selects them: lines among the
last 15 that are not tax lines and satisfy the totals disjunction, each
contributing its last money token. -/
def totalsCandidates (lines : List (List Char)) : List ℚ :=
  (lastN 15 lines).filterMap fun l =>
    if !isTaxLine l && isTotalsLine l then lastMoneyTok l else none

/-- The tax candidates: every tax-keyword line among the last 15 that has
a money token contributes its last money token. -/
def taxCandidates (lines : List (List Char)) : List ℚ :=
  (lastN 15 lines).filterMap fun l => if isTaxLine l then lastMoneyTok l else none

/-- The totals candidates exactly as the claim words them: every line
whose lowercase form contains `total` but not `sub`, or contains `grand`
or `amount` — with no exclusion of tax lines. -/
def claimTotalsCandidates (lines : List (List Char)) : List ℚ :=
  (lastN 15 lines).filterMap fun l => if isTotalsLine l then lastMoneyTok l else none

/-- The numeric-date policy as the claim words it: the branch condition
reads the *year-looking token* (`match[3]`) rather than the full match. -/
def claimNumericHandler (m : NumDateMatch) : Option String :=
  if m.m3.length = 4 && startsWithL "20".data m.m3 then
    jsDateIso (natOfDigits m.m1) ((natOfDigits m.m2 : Int) - 1) (natOfDigits m.m3)
  else
    jsDateIso ((natOfDigits m.m3 : Int) + (if natOfDigits m.m3 < 100 then 2000 else 0))
      ((natOfDigits m.m1 : Int) - 1) (natOfDigits m.m2)

/-- `parseDate` with the numeric policy read as in the claim. -/
def claimParseDate (text : String) : Option String :=
  ((findFirst pat1At text.data).bind claimNumericHandler).orElse fun _ =>
    ((findFirst pat2At text.data).bind claimNumericHandler).orElse fun _ =>
      (findFirst pat3At text.data).bind monthHandler

/-- The URL-matching lines among the first 10 normalized lines. -/
def urlLines10 (lines : List (List Char)) : List (List Char) :=
  (lines.take 10).filter isUrlLine

end Ocr

-- smoke tests (definitions are exercised again inside the claim proofs)
example : Ocr.moneyAll "Tax (10%) 6.00".data = ["6.00".data] := by decide
example : Ocr.moneyAll "1,234.56 and 7.89".data
    = ["1,234.56".data, "7.89".data] := by decide
example : Ocr.findMoneyEnd "ITEM 2  2x    50.00".data = some "50.00".data := by decide
example : Ocr.findMoneyEnd "1.23 4.56".data = some "4.56".data := by decide
example : Ocr.qtyFind "50.00".data = some "50.00".data := by decide
example : Ocr.qtyFind "2x".data = some "2".data := by decide
example : Ocr.moneyVal "1,234.56".data = mkRat 123456 100 := by decide
example : Ocr.linesOf "  a \n\n b\n" = ["a".data, "b".data] := by decide
example : Ocr.splitWs2 "ITEM 2  2x    50.00".data
    = ["ITEM 2".data, "2x".data, "50.00".data] := by decide
example : Ocr.parseDate "Date: 15/01/2024" = some "2025-03-01" := by decide
example : Ocr.parseDate "2024-01-15" = some "2016-12-01" := by decide
example : Ocr.parseDate "25 Dec 2023" = some "2023-12-25" := by decide
example : Ocr.parseDate "no date here" = none := by decide
example : Ocr.extractReceiptNumber "Receipt No: AB-1234" = some "AB-1234" := by decide
example : Ocr.extractReceiptNumber "   " = none := by decide
example : Ocr.extractPaymentMethod "paid by Visa ****1234" = some "VISA ****1234" := by decide
example : Ocr.inferCurrency "₹450.00" = some "INR" := by decide
example : Ocr.extractTotals (Ocr.linesOf "Subtotal 60.00\nTax (10%) 6.00\nTotal 66.00")
    = (some 66, some 6) := by decide
example : Ocr.parseItems (Ocr.linesOf "ITEM 2  2x    50.00")
    = [⟨"ITEM 2", 50, some 1, 50, 1⟩] := by decide
example :
    (Ocr.extractStoreInfo (Ocr.linesOf "BIG MART\n12 Main St\nTown\nwww.bigmart.com")).website
      = some "www.bigmart.com" := by decide

namespace Ocr

theorem ratDiv_eq_div (a b : ℚ) (hb : b ≠ 0) : ratDiv a b = a / b := by
  have hbnum : b.num ≠ 0 := Rat.num_ne_zero.mpr hb
  have h1 : ((a.den : ℚ)) ≠ 0 := Nat.cast_ne_zero.mpr (Rat.den_pos a).ne'
  have h2 : ((b.den : ℚ)) ≠ 0 := Nat.cast_ne_zero.mpr (Rat.den_pos b).ne'
  have h3 : ((b.num : ℚ)) ≠ 0 := Int.cast_ne_zero.mpr hbnum
  have hrhs : a / b = ((a.num : ℚ) * b.den) / ((a.den : ℚ) * b.num) := by
    conv_lhs => rw [← Rat.num_div_den a, ← Rat.num_div_den b]
    field_simp
  rcases lt_or_le b.num 0 with h | h
  · have habs : ((b.num.natAbs : ℚ)) = -(b.num : ℚ) := by
      rw [Int.cast_natAbs, abs_of_neg (by exact_mod_cast h)]
      push_cast
      ring
    rw [ratDiv, if_pos h, Rat.mkRat_eq_div, hrhs]
    push_cast
    rw [habs]
    rw [show ((a.den : ℚ) * -(b.num : ℚ)) = -((a.den : ℚ) * (b.num : ℚ)) by ring]
    rw [div_neg, neg_div, neg_neg]
  · have habs : ((b.num.natAbs : ℚ)) = (b.num : ℚ) := by
      rw [Int.cast_natAbs, abs_of_nonneg (by exact_mod_cast h)]
    rw [ratDiv, if_neg (by omega), Rat.mkRat_eq_div, hrhs]
    push_cast
    rw [habs]

/-! ### Whitespace-only input -/

theorem ws_char_facts (c : Char) (h : isJsWs c = true) :
    Char.toLower c = c ∧ c.isDigit = false := by
  have hm : c ∈ wsChars := by simpa [isJsWs] using h
  fin_cases hm <;> decide

theorem ws_ne (c x : Char) (h : isJsWs c = true) (hx : isJsWs x = false) : c ≠ x := by
  intro e
  subst e
  simp [h] at hx

theorem jsTrim_all_ws (l : List Char) (h : ∀ c ∈ l, isJsWs c = true) : jsTrim l = [] := by
  have h1 : l.dropWhile isJsWs = [] := by
    induction l with
    | nil => rfl
    | cons c t ih =>
      rw [List.dropWhile_cons, if_pos (by simp [h c (by simp)])]
      exact ih (fun c' hc' => h c' (List.mem_cons_of_mem _ hc'))
  simp [jsTrim, h1]

theorem splitNl_ne_nil (l : List Char) : splitNl l ≠ [] := by
  cases l with
  | nil => simp [splitNl]
  | cons c t =>
    rw [splitNl]
    split
    · simp
    · cases h : splitNl t <;> simp

theorem splitNl_subset (l p : List Char) (hp : p ∈ splitNl l) : ∀ c ∈ p, c ∈ l := by
  induction l generalizing p with
  | nil =>
    simp [splitNl] at hp
    simp [hp]
  | cons d t ih =>
    intro c hc
    rw [splitNl] at hp
    by_cases hd : d = '\n'
    · rw [if_pos hd] at hp
      rcases List.mem_cons.mp hp with h | h
      · subst h; simp at hc
      · exact List.mem_cons_of_mem _ (ih p h c hc)
    · rw [if_neg hd] at hp
      cases hsp : splitNl t with
      | nil => exact absurd hsp (splitNl_ne_nil t)
      | cons p0 ps =>
        rw [hsp] at hp
        rcases List.mem_cons.mp hp with h | h
        · subst h
          rcases List.mem_cons.mp hc with h' | h'
          · simp [h']
          · exact List.mem_cons_of_mem _ (ih p0 (by rw [hsp]; exact List.mem_cons_self ..) c h')
        · exact List.mem_cons_of_mem _ (ih p (by rw [hsp]; exact List.mem_cons_of_mem _ h) c hc)

theorem linesOf_ws (s : String) (h : s.data.all isJsWs = true) : linesOf s = [] := by
  rw [linesOf, List.filter_eq_nil_iff]
  intro a ha
  obtain ⟨p, hp, rfl⟩ := List.mem_map.mp ha
  have ht : jsTrim p = [] :=
    jsTrim_all_ws p (fun c hc => (List.all_eq_true.mp h) c (splitNl_subset _ _ hp c hc))
  simp [ht]

theorem findFirst_eq_none {α : Type} (p : List Char → Option α) (l : List Char)
    (h : ∀ (c : Char) (t : List Char), c ∈ l → p (c :: t) = none) : findFirst p l = none := by
  induction l with
  | nil => rfl
  | cons c t ih =>
    rw [findFirst, h c t (List.mem_cons_self ..)]
    exact ih (fun c' t' hc' => h c' t' (List.mem_cons_of_mem _ hc'))

theorem digitTakes_cons_nd (lo hi : Nat) (hlo : 0 < lo) (c : Char) (t : List Char)
    (hc : c.isDigit = false) : digitTakes lo hi (c :: t) = [] := by
  rw [digitTakes]
  simp [List.takeWhile_cons, hc]
  omega

theorem pat1At_cons_nd (c : Char) (t : List Char) (hc : c.isDigit = false) :
    pat1At (c :: t) = none := by
  rw [pat1At, digitTakes_cons_nd 1 2 (by omega) c t hc]
  rfl

theorem pat2At_cons_nd (c : Char) (t : List Char) (hc : c.isDigit = false) :
    pat2At (c :: t) = none := by
  rw [pat2At, digitTakes_cons_nd 4 4 (by omega) c t hc]
  rfl

theorem pat3At_cons_nd (c : Char) (t : List Char) (hc : c.isDigit = false) :
    pat3At (c :: t) = none := by
  rw [pat3At, digitTakes_cons_nd 1 2 (by omega) c t hc]
  rfl

theorem parseDate_ws (s : String) (h : s.data.all isJsWs = true) : parseDate s = none := by
  have hd : ∀ c ∈ s.data, c.isDigit = false :=
    fun c hc => (ws_char_facts c ((List.all_eq_true.mp h) c hc)).2
  have h1 : findFirst pat1At s.data = none :=
    findFirst_eq_none _ _ (fun c t hc => pat1At_cons_nd c t (hd c hc))
  have h2 : findFirst pat2At s.data = none :=
    findFirst_eq_none _ _ (fun c t hc => pat2At_cons_nd c t (hd c hc))
  have h3 : findFirst pat3At s.data = none :=
    findFirst_eq_none _ _ (fun c t hc => pat3At_cons_nd c t (hd c hc))
  simp [parseDate, h1, h2, h3, Option.orElse]

theorem rnAt_cons_ws (c : Char) (t : List Char) (h : isJsWs c = true) :
    rnAt (c :: t) = none := by
  have hlow := (ws_char_facts c h).1
  have hr : c ≠ 'r' := ws_ne c 'r' h (by decide)
  have hi : c ≠ 'i' := ws_ne c 'i' h (by decide)
  have hb : c ≠ 'b' := ws_ne c 'b' h (by decide)
  have ht : c ≠ 't' := ws_ne c 't' h (by decide)
  have ho : c ≠ 'o' := ws_ne c 'o' h (by decide)
  rw [rnAt]
  simp only [altCI, show ("receipt").data = 'r' :: "eceipt".data from rfl,
    show ("invoice").data = 'i' :: "nvoice".data from rfl,
    show ("bill").data = 'b' :: "ill".data from rfl,
    show ("txn").data = 't' :: "xn".data from rfl,
    show ("trans").data = 't' :: "rans".data from rfl,
    show ("order").data = 'o' :: "rder".data from rfl,
    litCI]
  rw [hlow]
  simp [hr, hi, hb, ht, ho]

theorem rn_ws (s : String) (h : s.data.all isJsWs = true) : extractReceiptNumber s = none := by
  rw [extractReceiptNumber,
    findFirst_eq_none _ _ (fun c t hc => rnAt_cons_ws c t ((List.all_eq_true.mp h) c hc))]
  rfl

theorem lowerL_ws_fix (l : List Char) (h : ∀ c ∈ l, isJsWs c = true) : lowerL l = l := by
  rw [lowerL]
  conv_rhs => rw [← List.map_id l]
  exact List.map_congr_left (fun c hc => (ws_char_facts c (h c hc)).1)

theorem infixOfL_ws_false (w l : List Char) (hne : w ≠ [])
    (ha : isJsWs (w.headD 'x') = false)
    (h : ∀ c ∈ l, isJsWs c = true) : infixOfL w l = false := by
  obtain ⟨a, w, rfl⟩ : ∃ a w', w = a :: w' := by
    cases w with
    | nil => exact absurd rfl hne
    | cons a w' => exact ⟨a, w', rfl⟩
  simp only [List.headD_cons] at ha
  induction l with
  | nil => rfl
  | cons c t ih =>
    rw [infixOfL, startsWithL]
    have hac : (a = c) = False := by
      simp [(ws_ne c a (h c (by simp)) ha).symm]
    have ih' := ih (fun c' hc' => h c' (List.mem_cons_of_mem _ hc'))
    simp [hac, ih']

theorem payment_ws (s : String) (h : s.data.all isJsWs = true) :
    extractPaymentMethod s = none := by
  have hws : ∀ c ∈ s.data, isJsWs c = true := List.all_eq_true.mp h
  have hfix : lowerL s.data = s.data := lowerL_ws_fix _ hws
  have hfind : paymentMethods.find?
      (fun m => infixOfL m.data (lowerL s.data)) = none := by
    rw [List.find?_eq_none]
    intro m hm
    rw [hfix]
    fin_cases hm <;> simp only [Bool.not_eq_true] <;>
      exact infixOfL_ws_false _ _ (by decide) (by decide) hws
  rw [extractPaymentMethod]
  simp only [hfind]

theorem currency_ws (s : String) (h : s.data.all isJsWs = true) : inferCurrency s = none := by
  have hws : ∀ c ∈ s.data, isJsWs c = true := List.all_eq_true.mp h
  have hfind : currencySymbols.find? (fun p => s.data.contains p.1) = none := by
    rw [List.find?_eq_none]
    intro p hp
    have hforbidden : isJsWs p.1 = false := by fin_cases hp <;> decide
    have : p.1 ∉ s.data := fun hmem => by simp [hws p.1 hmem] at hforbidden
    simpa using this
  rw [inferCurrency, hfind]
  rfl

/-- C1.  For every input the parser returns a fully-populated record with
`raw_text` equal to the input and never fails; on empty or whitespace-only
input every field takes its documented default: store name `"Unknown
Store"`, the parse-time current date, zero totals, the generated
`REC-`-placeholder, currency `"USD"` and no items. -/
theorem spec_total_with_defaults (today : String) (now : Nat) (s : String) :
    (parseReceiptData today now s).raw_text = s ∧
      (s.data.all isJsWs = true →
        parseReceiptData today now s =
          ⟨"Unknown Store", none, none, today, 0, 0, "REC-" ++ toString now,
            none, "USD", [], s⟩) := by
  refine ⟨rfl, fun hws => ?_⟩
  have hl : linesOf s = [] := linesOf_ws s hws
  have hd : parseDate s = none := parseDate_ws s hws
  have hr : extractReceiptNumber s = none := rn_ws s hws
  have hp : extractPaymentMethod s = none := payment_ws s hws
  have hc : inferCurrency s = none := currency_ws s hws
  simp [parseReceiptData, hl, hd, hr, hp, hc, extractStoreInfo, extractTotals,
    parseItems, jsOrStr, jsOrNum, lastN]

theorem spec_total_with_defaults_witness :
    (parseReceiptData "2026-10-12" 7 " \t\n ").raw_text = " \t\n " ∧
      parseReceiptData "2026-10-12" 7 " \t\n " =
        ⟨"Unknown Store", none, none, "2026-10-12", 0, 0, "REC-7",
          none, "USD", [], " \t\n "⟩ :=
  ⟨(spec_total_with_defaults "2026-10-12" 7 " \t\n ").1,
    (spec_total_with_defaults "2026-10-12" 7 " \t\n ").2 (by decide)⟩

/-! ### Purity (claim C5) -/

/-- C5 is false as stated: when `receipt_number` falls back to its
default, the output embeds `Date.now()`, so two calls on the same string
at different times differ. -/
theorem spec_purity_counterexample :
    parseReceiptData "2026-10-12" 0 "" ≠ parseReceiptData "2026-10-12" 1 "" := by
  decide

/-- C5 (amended).  The parser is a pure function of its text input and
the ambient clock: with equal clock readings two calls on the same string
are identical, and every field other than `purchase_date` and
`receipt_number` (the two whose fallback defaults read the clock) is
independent of the clock. -/
theorem spec_purity_amended (t1 t2 : String) (n1 n2 : Nat) (s : String) :
    (parseReceiptData t1 n1 s).store_name = (parseReceiptData t2 n2 s).store_name ∧
    (parseReceiptData t1 n1 s).store_address = (parseReceiptData t2 n2 s).store_address ∧
    (parseReceiptData t1 n1 s).store_website = (parseReceiptData t2 n2 s).store_website ∧
    (parseReceiptData t1 n1 s).total_amount = (parseReceiptData t2 n2 s).total_amount ∧
    (parseReceiptData t1 n1 s).tax_amount = (parseReceiptData t2 n2 s).tax_amount ∧
    (parseReceiptData t1 n1 s).payment_method = (parseReceiptData t2 n2 s).payment_method ∧
    (parseReceiptData t1 n1 s).currency = (parseReceiptData t2 n2 s).currency ∧
    (parseReceiptData t1 n1 s).items = (parseReceiptData t2 n2 s).items ∧
    (parseReceiptData t1 n1 s).raw_text = (parseReceiptData t2 n2 s).raw_text ∧
    (t1 = t2 → n1 = n2 → parseReceiptData t1 n1 s = parseReceiptData t2 n2 s) := by
  refine ⟨rfl, rfl, rfl, rfl, rfl, rfl, rfl, rfl, rfl, ?_⟩
  rintro rfl rfl
  rfl

theorem spec_purity_amended_witness :
    (parseReceiptData "2026-10-12" 3 "milk 4.00").items
        = (parseReceiptData "1999-01-01" 8 "milk 4.00").items ∧
      parseReceiptData "2026-10-12" 3 "milk 4.00" = parseReceiptData "2026-10-12" 3 "milk 4.00" :=
  ⟨(spec_purity_amended "2026-10-12" "1999-01-01" 3 8 "milk 4.00").2.2.2.2.2.2.2.1,
    (spec_purity_amended "2026-10-12" "2026-10-12" 3 3 "milk 4.00").2.2.2.2.2.2.2.2.2 rfl rfl⟩

/-! ### Store website (claim C9) -/

theorem getLast?_cons_some {α : Type} (x u : α) (xs : List α) (h : xs.getLast? = some u) :
    (x :: xs).getLast? = some u := by
  cases xs with
  | nil => simp at h
  | cons y ys => rw [List.getLast?_cons_cons]; exact h

theorem storeStep_website_other (st : StoreAcc) (l : List Char) (hu : isUrlLine l = false) :
    (storeStep st l).website = st.website := by
  rw [storeStep]
  split_ifs <;> simp_all <;> split_ifs <;> rfl

theorem store_fold_website (ls : List (List Char)) (st : StoreAcc) :
    (ls.foldl storeStep st).website =
      match (ls.filter isUrlLine).getLast? with
      | some u => some u
      | none => st.website := by
  induction ls generalizing st with
  | nil => rfl
  | cons l t ih =>
    rw [List.foldl_cons, ih]
    by_cases hu : isUrlLine l
    · have hne : l.isEmpty = false := by
        cases l with
        | nil => exact absurd hu (by decide)
        | cons c t' => rfl
      have hstep : (storeStep st l).website = some l := by
        rw [storeStep, if_neg (by simp [hne]), if_pos hu]
      rw [List.filter_cons_of_pos hu]
      cases hlast : (t.filter isUrlLine).getLast? with
      | some u => rw [getLast?_cons_some _ _ _ hlast]
      | none =>
        have hnil : t.filter isUrlLine = [] := by
          cases he : t.filter isUrlLine with
          | nil => rfl
          | cons a as => rw [he] at hlast; simp [List.getLast?_eq_none_iff] at hlast
        rw [hnil]
        simp [hstep]
    · rw [List.filter_cons_of_neg (by simp [hu]),
        storeStep_website_other st l (by simp [hu])]

/-- C9 is false as stated: when the first 10 lines contain two URL
lines, the parser reports the second (last), not the first. -/
theorem spec_store_website_counterexample :
    (parseReceiptData "2026-10-12" 0 "www.alpha.com\nwww.beta.com").store_website
      ≠ some "www.alpha.com" := by
  decide

/-- C9 (amended).  `store_website` is the *last* line matching the URL
pattern among the first 10 normalized lines (each URL line overwrites the
previous), or absent when there is none. -/
theorem spec_store_website_amended (today : String) (now : Nat) (s : String) :
    (parseReceiptData today now s).store_website =
      ((urlLines10 (linesOf s)).getLast?).map String.mk := by
  have h := store_fold_website ((linesOf s).take 10) ⟨none, [], none⟩
  show (extractStoreInfo (linesOf s)).website = _
  rw [extractStoreInfo, urlLines10]
  cases hlast : (((linesOf s).take 10).filter isUrlLine).getLast? with
  | some u => simp [h, hlast]
  | none => simp [h, hlast]

/-! ### Totals (claims C2 and C8) -/

theorem getLast?_cons_eq {α : Type} (x : α) (xs : List α) :
    (x :: xs).getLast? = match xs.getLast? with | some u => some u | none => some x := by
  cases hlast : xs.getLast? with
  | some u => exact getLast?_cons_some _ _ _ hlast
  | none =>
    have hnil : xs = [] := by simpa [List.getLast?_eq_none_iff] using hlast
    subst hnil
    rfl

theorem totals_foldl (bl : List (List Char)) (st : List ℚ × Option ℚ) :
    bl.foldl totalsStep st =
      (st.1 ++ bl.filterMap (fun l => if !isTaxLine l && isTotalsLine l then lastMoneyTok l else none),
       match (bl.filterMap (fun l => if isTaxLine l then lastMoneyTok l else none)).getLast? with
       | some v => some v
       | none => st.2) := by
  induction bl generalizing st with
  | nil => simp
  | cons l t ih =>
    rw [List.foldl_cons, ih]
    by_cases htax : isTaxLine l
    · cases hm : lastMoneyTok l with
      | some v =>
        simp only [totalsStep, htax, if_pos rfl, hm, List.filterMap_cons, Bool.not_true,
          Bool.false_and, if_true, if_false, getLast?_cons_eq]
        cases hlast : (t.filterMap (fun l => if isTaxLine l then lastMoneyTok l else none)).getLast? <;>
          simp [hlast]
      | none =>
        simp only [totalsStep, htax, hm, List.filterMap_cons, Bool.not_true, Bool.false_and,
          if_true, if_false]
        simp
    · by_cases htot : isTotalsLine l
      · cases hm : lastMoneyTok l with
        | some v =>
          simp only [totalsStep, htax, htot, hm, List.filterMap_cons, Bool.not_false,
            Bool.true_and, if_false, if_true]
          simp [List.append_assoc]
        | none =>
          simp only [totalsStep, htax, htot, hm, List.filterMap_cons, Bool.not_false,
            Bool.true_and, if_false, if_true]
          simp
      · simp only [totalsStep, htax, htot, List.filterMap_cons, Bool.not_false, Bool.true_and,
          if_false]
        simp [htax, htot]

theorem extractTotals_eq (lines : List (List Char)) :
    extractTotals lines =
      ((if totalsCandidates lines = [] then none else some (maxList (totalsCandidates lines))),
        (taxCandidates lines).getLast?) := by
  rw [extractTotals, totals_foldl]
  rw [totalsCandidates, taxCandidates]
  cases hlast : ((lastN 15 lines).filterMap
      (fun l => if isTaxLine l then lastMoneyTok l else none)).getLast? <;>
    simp [hlast, List.isEmpty_iff]

/-- C2 is false as stated: the tax branch is tested first, so a line
containing both a tax keyword and `total` (e.g. `"Tax total 5.00"`)
becomes the tax candidate and is *not* a totals candidate, while the
claim's candidate description would make 5.00 the total. -/
theorem spec_totals_counterexample :
    (parseReceiptData "2026-10-12" 0 "Tax total 5.00").total_amount
      ≠ maxList (claimTotalsCandidates (linesOf "Tax total 5.00")) := by
  decide

/-- C2 (amended).  `total_amount` is the maximum among the totals
candidates — the last money token of each of the last 15 lines that
contains *no tax keyword* and contains `total` without `sub`, or `grand`,
or `amount` — and `tax_amount` is the last money token of the last
tax-keyword line bearing a money token; the `Subtotal/Tax/Total` scenario
yields 6.00 and 66.00. -/
theorem spec_totals_amended (today : String) (now : Nat) (s : String) :
    ((parseReceiptData today now s).total_amount =
        (if totalsCandidates (linesOf s) = [] then 0
         else maxList (totalsCandidates (linesOf s))) ∧
      (parseReceiptData today now s).tax_amount =
        ((taxCandidates (linesOf s)).getLast?).getD 0) ∧
    (parseReceiptData "2026-10-12" 0 "Subtotal 60.00\nTax (10%) 6.00\nTotal 66.00").total_amount
        = 66 ∧
    (parseReceiptData "2026-10-12" 0 "Subtotal 60.00\nTax (10%) 6.00\nTotal 66.00").tax_amount
        = 6 := by
  refine ⟨⟨?_, ?_⟩, by decide, by decide⟩
  · show jsOrNum (extractTotals (linesOf s)).1 0 = _
    rw [extractTotals_eq]
    by_cases hc : totalsCandidates (linesOf s) = []
    · simp [hc, jsOrNum]
    · rw [if_neg hc, if_neg hc]
      by_cases hz : maxList (totalsCandidates (linesOf s)) = 0 <;> simp [jsOrNum, hz]
  · show jsOrNum (extractTotals (linesOf s)).2 0 = _
    rw [extractTotals_eq]
    cases hlast : (taxCandidates (linesOf s)).getLast? with
    | none => simp [jsOrNum]
    | some v =>
      by_cases hz : v = 0 <;> simp [jsOrNum, hz]

theorem jsParseFloat_nonneg (l : List Char) : 0 ≤ jsParseFloat l := by
  rw [jsParseFloat]
  split <;> (rw [Rat.mkRat_eq_div]; positivity)

theorem lastMoneyTok_nonneg (l : List Char) (v : ℚ) (h : lastMoneyTok l = some v) : 0 ≤ v := by
  rw [lastMoneyTok] at h
  have hmem : v ∈ (moneyAll l).map moneyVal := List.mem_of_mem_getLast? h
  obtain ⟨tok, _, rfl⟩ := List.mem_map.mp hmem
  exact jsParseFloat_nonneg _

theorem candidate_nonneg (p : List Char → Bool) (lines : List (List Char)) (v : ℚ)
    (hv : v ∈ lines.filterMap (fun l => if p l then lastMoneyTok l else none)) : 0 ≤ v := by
  obtain ⟨l, _, hfl⟩ := List.mem_filterMap.mp hv
  by_cases hp : p l
  · exact lastMoneyTok_nonneg l v (by simpa [hp] using hfl)
  · simp [hp] at hfl

theorem le_foldl_max (qs : List ℚ) (a : ℚ) : a ≤ qs.foldl max a := by
  induction qs generalizing a with
  | nil => exact le_refl a
  | cons q t ih => exact le_trans (le_max_left a q) (ih (max a q))

theorem maxList_nonneg (l : List ℚ) (h : ∀ v ∈ l, 0 ≤ v) : 0 ≤ maxList l := by
  cases l with
  | nil => exact le_refl 0
  | cons q qs => exact le_trans (h q (by simp)) (le_foldl_max qs q)

/-- C8.  `total_amount` and `tax_amount` are never negative, and each is
exactly 0 when the last 15 normalized lines offer no corresponding
candidate. -/
theorem spec_totals_nonneg (today : String) (now : Nat) (s : String) :
    0 ≤ (parseReceiptData today now s).total_amount ∧
    0 ≤ (parseReceiptData today now s).tax_amount ∧
    (totalsCandidates (linesOf s) = [] → (parseReceiptData today now s).total_amount = 0) ∧
    (taxCandidates (linesOf s) = [] → (parseReceiptData today now s).tax_amount = 0) := by
  have htot : (parseReceiptData today now s).total_amount
      = jsOrNum (extractTotals (linesOf s)).1 0 := rfl
  have htax : (parseReceiptData today now s).tax_amount
      = jsOrNum (extractTotals (linesOf s)).2 0 := rfl
  rw [htot, htax, extractTotals_eq]
  refine ⟨?_, ?_, ?_, ?_⟩
  · by_cases hc : totalsCandidates (linesOf s) = []
    · simp [hc, jsOrNum]
    · rw [if_neg hc]
      have h0 : 0 ≤ maxList (totalsCandidates (linesOf s)) :=
        maxList_nonneg _ (fun v hv => candidate_nonneg _ _ v hv)
      by_cases hz : maxList (totalsCandidates (linesOf s)) = 0 <;> simp [jsOrNum, hz, h0]
  · cases hlast : (taxCandidates (linesOf s)).getLast? with
    | none => simp [jsOrNum]
    | some v =>
      have h0 : 0 ≤ v := candidate_nonneg _ _ v (List.mem_of_mem_getLast? hlast)
      by_cases hz : v = 0 <;> simp [jsOrNum, hz, h0]
  · intro hc
    simp [hc, jsOrNum]
  · intro hc
    simp [hc, jsOrNum]

theorem spec_totals_nonneg_witness :
    0 ≤ (parseReceiptData "2026-10-12" 0 "just words").total_amount ∧
      (parseReceiptData "2026-10-12" 0 "just words").total_amount = 0 ∧
      (parseReceiptData "2026-10-12" 0 "just words").tax_amount = 0 :=
  ⟨(spec_totals_nonneg "2026-10-12" 0 "just words").1,
    (spec_totals_nonneg "2026-10-12" 0 "just words").2.2.1 (by decide),
    (spec_totals_nonneg "2026-10-12" 0 "just words").2.2.2 (by decide)⟩

/-! ### Line items (claims C4, C7 and C10) -/

/-- C4: evaluation of the item scenario on the code.  The line
`"ITEM 2  2x    50.00"` yields quantity 50 and unit price 1 — not
quantity 2 and unit price 25 — because the trailing price segment
`50.00` also matches the unanchored quantity regex `/(\d+\.?\d*)x?/i`
and overwrites the quantity extracted from `2x`. -/
theorem spec_item_scenario_eval :
    (parseReceiptData "2026-10-12" 0 "ITEM 2  2x    50.00").items
      = [⟨"ITEM 2", 50, some 1, 50, 1⟩] := by
  decide

theorem itemLineStep_serials (acc : List LineItem) (l : List Char)
    (h : acc.map (·.serial_no) = List.range' 1 acc.length) :
    (itemLineStep acc l).map (·.serial_no) = List.range' 1 (itemLineStep acc l).length := by
  rw [itemLineStep]
  cases hfm : findMoneyEnd l with
  | none => exact h
  | some tok =>
    simp only [List.map_append, List.length_append, h]
    simp [List.range'_concat]
    omega

/-- C7.  The serial numbers of the emitted items are exactly the dense
sequence `1..N` in emission order. -/
theorem spec_serials_dense (today : String) (now : Nat) (s : String) :
    ((parseReceiptData today now s).items).map (·.serial_no)
      = List.range' 1 ((parseReceiptData today now s).items).length := by
  show (parseItems (linesOf s)).map (fun x => x.serial_no)
      = List.range' 1 (parseItems (linesOf s)).length
  rw [parseItems]
  have key : ∀ (ls : List (List Char)) (acc : List LineItem),
      acc.map (·.serial_no) = List.range' 1 acc.length →
        (ls.foldl itemLineStep acc).map (·.serial_no)
          = List.range' 1 (ls.foldl itemLineStep acc).length := by
    intro ls
    induction ls with
    | nil => exact fun acc h => h
    | cons l t ih =>
      intro acc h
      rw [List.foldl_cons]
      exact ih _ (itemLineStep_serials acc l h)
  exact key _ [] rfl

theorem qtyAt_isSome_of_digit (a : Char) (t : List Char) (ha : a.isDigit = true) :
    (qtyAt (a :: t)).isSome = true := by
  rw [qtyAt]
  simp only [ha, if_true]
  split <;> rfl

theorem qtyFind_isSome_of_digit (l : List Char) (c : Char) (hc : c ∈ l)
    (hd : c.isDigit = true) : (qtyFind l).isSome = true := by
  induction l with
  | nil => simp at hc
  | cons a t ih =>
    rw [qtyFind]
    by_cases ha : a.isDigit
    · have := qtyAt_isSome_of_digit a t ha
      cases hq : qtyAt (a :: t) with
      | some cap => rfl
      | none => rw [hq] at this; simp at this
    · have hct : c ∈ t := by
        rcases List.mem_cons.mp hc with h | h
        · subst h; exact absurd hd (by simpa using ha)
        · exact h
      cases hq : qtyAt (a :: t) with
      | some cap => rfl
      | none => exact ih hct

theorem fullMoneyTok_digit (part : List Char) (h : fullMoneyTok part = true) :
    ∃ c ∈ part, c.isDigit = true := by
  rw [fullMoneyTok] at h
  split at h
  · rename_i b a revA heq
    refine ⟨b, ?_, by simp_all⟩
    have : b ∈ part.reverse := by rw [heq]; simp
    simpa using this
  · simp at h

theorem partStep_inv (tp : ℚ) (st : ℚ × Option ℚ) (p : List Char)
    (h2 : st.2 = none) (h1 : 0 ≤ st.1) :
    (partStep tp st p).2 = none ∧ 0 ≤ (partStep tp st p).1 := by
  rw [partStep]
  cases hq : qtyFind p with
  | some cap => exact ⟨h2, jsParseFloat_nonneg cap⟩
  | none =>
    have hfm : fullMoneyTok p = false := by
      cases hfm' : fullMoneyTok p
      · rfl
      · obtain ⟨c, hc, hd⟩ := fullMoneyTok_digit p hfm'
        have := qtyFind_isSome_of_digit p c hc hd
        rw [hq] at this
        simp at this
    simp only [hfm, if_false, Bool.false_eq_true]
    exact ⟨h2, h1⟩

theorem parts_fold_inv (tp : ℚ) (parts : List (List Char)) (st : ℚ × Option ℚ)
    (h2 : st.2 = none) (h1 : 0 ≤ st.1) :
    (parts.foldl (partStep tp) st).2 = none ∧ 0 ≤ (parts.foldl (partStep tp) st).1 := by
  induction parts generalizing st with
  | nil => exact ⟨h2, h1⟩
  | cons p t ih =>
    rw [List.foldl_cons]
    obtain ⟨a, b⟩ := partStep_inv tp st p h2 h1
    exact ih _ a b

theorem itemLineStep_mem (acc : List LineItem) (l : List Char) (it : LineItem)
    (hit : it ∈ itemLineStep acc l) :
    it ∈ acc ∨
      (0 ≤ it.quantity ∧
        it.unit_price =
          (if it.quantity = 0 then none else some (ratDiv it.total_price it.quantity))) := by
  rw [itemLineStep] at hit
  cases hfm : findMoneyEnd l with
  | none => rw [hfm] at hit; exact Or.inl hit
  | some tok =>
    rw [hfm] at hit
    simp only [List.mem_append, List.mem_singleton] at hit
    rcases hit with h | h
    · exact Or.inl h
    · right
      subst h
      simp only []
      obtain ⟨hqnone, hqpos⟩ :=
        parts_fold_inv (moneyVal tok)
          ((if (splitWs2 l).length < 2 then splitWs1 l else splitWs2 l).drop 1)
          (1, none) rfl (by norm_num)
      set qu := ((if (splitWs2 l).length < 2 then splitWs1 l else splitWs2 l).drop 1).foldl
        (partStep (moneyVal tok)) (1, none) with hqu
      by_cases hz : qu.1 = 0
      · simp [hqnone, hz]
      · have hpos : qu.1 > 0 := lt_of_le_of_ne hqpos (Ne.symm hz)
        simp [hqnone, hz, hpos, hqpos]

theorem parseItems_mem (lines : List (List Char)) (it : LineItem)
    (hit : it ∈ parseItems lines) :
    0 ≤ it.quantity ∧
      it.unit_price =
        (if it.quantity = 0 then none else some (ratDiv it.total_price it.quantity)) := by
  rw [parseItems] at hit
  generalize hls : (lines.takeWhile (fun l => !hasTotalsKw l)) = ls at hit
  clear hls
  have key : ∀ (ls : List (List Char)) (acc : List LineItem),
      (∀ x ∈ acc, 0 ≤ x.quantity ∧
        x.unit_price = (if x.quantity = 0 then none else some (ratDiv x.total_price x.quantity))) →
      it ∈ ls.foldl itemLineStep acc →
      0 ≤ it.quantity ∧
        it.unit_price = (if it.quantity = 0 then none else some (ratDiv it.total_price it.quantity)) := by
    intro ls
    induction ls with
    | nil => exact fun acc hacc h => hacc it h
    | cons l t ih =>
      intro acc hacc h
      rw [List.foldl_cons] at h
      refine ih _ (fun x hx => ?_) h
      rcases itemLineStep_mem acc l x hx with hmem | hprop
      · exact hacc x hmem
      · exact hprop
  exact key _ [] (by simp) hit

/-- C10.  The distinct-unit-price branch of the item loop is
unreachable — every segment the money test would accept contains a digit
and is therefore claimed by the unanchored quantity regex first — so
`unit_price` is always the derived `total_price / quantity` when the
final quantity is nonzero, and null when it is zero. -/
theorem spec_unit_price_derived (today : String) (now : Nat) (s : String) (it : LineItem)
    (hit : it ∈ (parseReceiptData today now s).items) :
    (it.quantity ≠ 0 → it.unit_price = some (it.total_price / it.quantity)) ∧
    (it.quantity = 0 → it.unit_price = none) := by
  have h := parseItems_mem (linesOf s) it hit
  constructor
  · intro hz
    rw [h.2, if_neg hz, ratDiv_eq_div _ _ hz]
  · intro hz
    rw [h.2, if_pos hz]

theorem spec_unit_price_derived_witness :
    (⟨"Widget", mkRat 7 2, some 1, mkRat 7 2, 1⟩ : LineItem).unit_price
      = some ((mkRat 7 2 : ℚ) / mkRat 7 2) :=
  (spec_unit_price_derived "2026-10-12" 0 "Widget  3.50"
    ⟨"Widget", mkRat 7 2, some 1, mkRat 7 2, 1⟩ (by decide)).1 (by decide)

/-! ### Dates (claims C3 and C6) -/

theorem fdiv_facts (a b : Int) (hb : 0 < b) :
    b * (a.fdiv b) ≤ a ∧ a < b * (a.fdiv b) + b := by
  have h1 := Int.fdiv_add_fmod a b
  have h2 : 0 ≤ a.fmod b := by
    rw [Int.fmod_eq_emod a hb.le]
    exact Int.emod_nonneg a hb.ne'
  have h3 : a.fmod b < b := Int.fmod_lt_of_pos a hb
  omega

theorem emod_facts (a b : Int) (hb : 0 < b) : 0 ≤ a.emod b ∧ a.emod b < b :=
  ⟨Int.emod_nonneg a hb.ne', Int.emod_lt_of_pos a hb⟩

theorem daysFromCivil_bound (y m dd : Int) (hy : 99 ≤ y) (hy2 : y ≤ 10007)
    (hm : 1 ≤ m) (hm2 : m ≤ 12) (hdd : dd = 1) :
    -720000 ≤ daysFromCivil y m dd ∧ daysFromCivil y m dd ≤ 4000000 := by
  subst hdd
  simp only [daysFromCivil]
  split_ifs with h1 h2 h2 <;>
  · have hera := fdiv_facts (y - 1) 400 (by norm_num)
    have hera0 := fdiv_facts (y - 0) 400 (by norm_num)
    have hdoy1 := fdiv_facts (153 * (m + -3) + 2) 5 (by norm_num)
    have hdoy2 := fdiv_facts (153 * (m + 9) + 2) 5 (by norm_num)
    have h4a := fdiv_facts (y - 1 - (y - 1).fdiv 400 * 400) 4 (by norm_num)
    have h4b := fdiv_facts (y - 0 - (y - 0).fdiv 400 * 400) 4 (by norm_num)
    have h100a := fdiv_facts (y - 1 - (y - 1).fdiv 400 * 400) 100 (by norm_num)
    have h100b := fdiv_facts (y - 0 - (y - 0).fdiv 400 * 400) 100 (by norm_num)
    omega

theorem jsDateValid_bounded (y mon d : Int) (hy : 0 ≤ y) (hy2 : y ≤ 9999)
    (hm : -1 ≤ mon) (hm2 : mon ≤ 98) (hd0 : 0 ≤ d) (hd2 : d ≤ 9999) :
    jsDateValid (jsMakeDate y mon d) = true := by
  rw [jsDateValid, decide_eq_true_eq]
  simp only [jsMakeDate]
  split_ifs with h1
  · simp only [Bool.and_eq_true, decide_eq_true_eq] at h1
    have hf := fdiv_facts ((y + 1900) * 12 + mon) 12 (by norm_num)
    have he := emod_facts ((y + 1900) * 12 + mon) 12 (by norm_num)
    have hb := daysFromCivil_bound (((y + 1900) * 12 + mon).fdiv 12)
      (((y + 1900) * 12 + mon).emod 12 + 1) 1 (by omega) (by omega) (by omega) (by omega) rfl
    omega
  · simp only [Bool.and_eq_true, decide_eq_true_eq, not_and, not_le] at h1
    have h1' : 100 ≤ y := by omega
    have hf := fdiv_facts (y * 12 + mon) 12 (by norm_num)
    have he := emod_facts (y * 12 + mon) 12 (by norm_num)
    have hb := daysFromCivil_bound ((y * 12 + mon).fdiv 12)
      ((y * 12 + mon).emod 12 + 1) 1 (by omega) (by omega) (by omega) (by omega) rfl
    omega

theorem digit_le_nine (c : Char) (hc : c.isDigit = true) : c.toNat - 48 ≤ 9 := by
  rw [Char.isDigit] at hc
  simp only [Bool.and_eq_true, decide_eq_true_eq] at hc
  obtain ⟨g1, g2⟩ := hc
  have g1' : (48 : UInt32).toNat ≤ c.val.toNat := g1
  have g2' : c.val.toNat ≤ (57 : UInt32).toNat := g2
  rw [Char.toNat]
  simp [UInt32.toNat] at g1' g2' ⊢
  omega

theorem foldl_digits_lt (l : List Char) (a : Nat) (h : l.all Char.isDigit = true) :
    l.foldl (fun n c => n * 10 + (c.toNat - 48)) a < (a + 1) * 10 ^ l.length := by
  induction l generalizing a with
  | nil => simp
  | cons c t ih =>
    simp only [List.all_cons, Bool.and_eq_true] at h
    rw [List.foldl_cons]
    have hd : c.toNat - 48 ≤ 9 := digit_le_nine c h.1
    have step := ih (a * 10 + (c.toNat - 48)) h.2
    have hup : (a * 10 + (c.toNat - 48) + 1) * 10 ^ t.length ≤ (a + 1) * 10 ^ (t.length + 1) := by
      have hp : 1 ≤ 10 ^ t.length := Nat.one_le_pow _ _ (by norm_num)
      calc (a * 10 + (c.toNat - 48) + 1) * 10 ^ t.length
          ≤ ((a + 1) * 10) * 10 ^ t.length := by
            apply Nat.mul_le_mul_right
            omega
        _ = (a + 1) * 10 ^ (t.length + 1) := by ring
    calc List.foldl (fun n c => n * 10 + (c.toNat - 48)) (a * 10 + (c.toNat - 48)) t
        < (a * 10 + (c.toNat - 48) + 1) * 10 ^ t.length := step
      _ ≤ (a + 1) * 10 ^ (t.length + 1) := hup

theorem natOfDigits_lt (l : List Char) (h : l.all Char.isDigit = true) :
    natOfDigits l < 10 ^ l.length := by
  have := foldl_digits_lt l 0 h
  simpa [natOfDigits] using this

theorem findSome?_some {α β : Type} (f : α → Option β) (l : List α) (b : β)
    (h : l.findSome? f = some b) : ∃ a ∈ l, f a = some b := by
  induction l with
  | nil => simp at h
  | cons x t ih =>
    rw [List.findSome?_cons] at h
    cases hf : f x with
    | some y =>
      rw [hf] at h
      refine ⟨x, by simp, ?_⟩
      rw [hf]
      exact h
    | none =>
      rw [hf] at h
      obtain ⟨a, ha, hfa⟩ := ih h
      exact ⟨a, by simp [ha], hfa⟩

theorem take_all_of_takeWhile (P : Char → Bool) (k : Nat) (l : List Char)
    (h : k ≤ (l.takeWhile P).length) : (l.take k).all P = true := by
  induction l generalizing k with
  | nil => simp
  | cons c t ih =>
    cases k with
    | zero => simp
    | succ k' =>
      rw [List.takeWhile_cons] at h
      by_cases hp : P c
      · rw [if_pos hp] at h
        simp only [List.length_cons] at h
        rw [List.take_succ_cons, List.all_cons, hp, Bool.true_and]
        exact ih k' (by omega)
      · rw [if_neg hp] at h
        simp at h

theorem findFirst_eq_some {α : Type} (p : List Char → Option α) (l : List Char) (r : α)
    (h : findFirst p l = some r) : ∃ t, p t = some r := by
  induction l with
  | nil => simp [findFirst] at h
  | cons c t ih =>
    rw [findFirst] at h
    cases hp : p (c :: t) with
    | some x =>
      rw [hp] at h
      refine ⟨c :: t, ?_⟩
      rw [hp]
      exact h
    | none =>
      rw [hp] at h
      exact ih h

theorem digitTakes_mem (lo hi : Nat) (l t r : List Char)
    (h : (t, r) ∈ digitTakes lo hi l) :
    lo ≤ t.length ∧ t.length ≤ hi ∧ t.all Char.isDigit = true ∧ t ++ r = l := by
  rw [digitTakes] at h
  obtain ⟨k, hk, heq⟩ := List.mem_map.mp h
  rw [List.mem_reverse, List.mem_range'] at hk
  simp only [Prod.mk.injEq] at heq
  obtain ⟨ht, hr⟩ := heq
  subst ht
  subst hr
  have hkrun : k ≤ (l.takeWhile Char.isDigit).length := by omega
  have hklen : k ≤ l.length :=
    le_trans hkrun (List.Sublist.length_le (List.takeWhile_sublist _))
  refine ⟨?_, ?_, take_all_of_takeWhile _ _ _ hkrun, List.take_append_drop k l⟩
  · rw [List.length_take]
    omega
  · rw [List.length_take]
    omega

theorem pat1At_some (l : List Char) (m : NumDateMatch) (h : pat1At l = some m) :
    (1 ≤ m.m1.length ∧ m.m1.length ≤ 2 ∧ m.m1.all Char.isDigit = true) ∧
    (1 ≤ m.m2.length ∧ m.m2.length ≤ 2 ∧ m.m2.all Char.isDigit = true) ∧
    (2 ≤ m.m3.length ∧ m.m3.length ≤ 4 ∧ m.m3.all Char.isDigit = true) ∧
    ∃ s1 s2, isDateSep s1 = true ∧ isDateSep s2 = true ∧
      m.m0 = m.m1 ++ s1 :: m.m2 ++ s2 :: m.m3 := by
  rw [pat1At] at h
  obtain ⟨⟨t1, r1⟩, h1mem, h1⟩ := findSome?_some _ _ _ h
  obtain ⟨len1a, len1b, dig1, cat1⟩ := digitTakes_mem 1 2 l t1 r1 h1mem
  dsimp only at h1
  cases r1 with
  | nil => simp at h1
  | cons s1 r2 =>
    dsimp only at h1
    by_cases hs1 : isDateSep s1
    swap
    · simp [hs1] at h1
    rw [if_pos hs1] at h1
    obtain ⟨⟨t2, r3⟩, h2mem, h2⟩ := findSome?_some _ _ _ h1
    obtain ⟨len2a, len2b, dig2, cat2⟩ := digitTakes_mem 1 2 r2 t2 r3 h2mem
    dsimp only at h2
    cases r3 with
    | nil => simp at h2
    | cons s2 r4 =>
      dsimp only at h2
      by_cases hs2 : isDateSep s2
      swap
      · simp [hs2] at h2
      rw [if_pos hs2] at h2
      obtain ⟨⟨t3, r5⟩, h3mem, h3⟩ := findSome?_some _ _ _ h2
      obtain ⟨len3a, len3b, dig3, cat3⟩ := digitTakes_mem 2 4 r4 t3 r5 h3mem
      dsimp only at h3
      have hm := Option.some.inj h3
      subst hm
      exact ⟨⟨len1a, len1b, dig1⟩, ⟨len2a, len2b, dig2⟩, ⟨len3a, len3b, dig3⟩,
        s1, s2, hs1, hs2, rfl⟩

theorem m0_startsWith20 (t1 : List Char) (s1 : Char) (rest : List Char)
    (hlen1 : 1 ≤ t1.length) (hlen2 : t1.length ≤ 2) (hs1 : isDateSep s1 = true) :
    (startsWithL "20".data (t1 ++ s1 :: rest) = true) ↔ t1 = ['2', '0'] := by
  have hsep : s1 ≠ '0' := by
    intro e
    rw [e] at hs1
    simp [isDateSep] at hs1
  match t1, hlen1, hlen2 with
  | [a], _, _ =>
    constructor
    · intro h
      simp only [List.cons_append, List.nil_append,
        show ("20").data = ['2', '0'] from rfl, startsWithL, Bool.and_eq_true,
        decide_eq_true_eq] at h
      exact absurd h.2.1.symm hsep
    · intro h
      simp at h
  | [a, b], _, _ =>
    constructor
    · intro h
      simp only [List.cons_append, List.nil_append,
        show ("20").data = ['2', '0'] from rfl, startsWithL, Bool.and_eq_true,
        decide_eq_true_eq] at h
      rw [← h.1, ← h.2.1]
    · intro h
      injection h with e1 h'
      injection h' with e2 _
      subst e1
      subst e2
      simp [startsWithL, show ("20").data = ['2', '0'] from rfl]

theorem jsDateIso_some (y mon d : Int) (hy : 0 ≤ y) (hy2 : y ≤ 9999)
    (hm : -1 ≤ mon) (hm2 : mon ≤ 98) (hd0 : 0 ≤ d) (hd2 : d ≤ 9999) :
    jsDateIso y mon d = some (isoDate (jsMakeDate y mon d)) := by
  rw [jsDateIso, jsDateValid_bounded y mon d hy hy2 hm hm2 hd0 hd2]
  rfl

theorem numericHandler_pat1 (m : NumDateMatch)
    (h1 : 1 ≤ m.m1.length ∧ m.m1.length ≤ 2 ∧ m.m1.all Char.isDigit = true)
    (h2 : 1 ≤ m.m2.length ∧ m.m2.length ≤ 2 ∧ m.m2.all Char.isDigit = true)
    (h3 : 2 ≤ m.m3.length ∧ m.m3.length ≤ 4 ∧ m.m3.all Char.isDigit = true)
    (hm0 : ∃ s1 s2, isDateSep s1 = true ∧ isDateSep s2 = true ∧
      m.m0 = m.m1 ++ s1 :: m.m2 ++ s2 :: m.m3) :
    (numericHandler m).isSome = true ∧
      numericHandler m =
        (if m.m1 = ['2', '0'] then
          jsDateIso (natOfDigits m.m1) ((natOfDigits m.m2 : Int) - 1) (natOfDigits m.m3)
        else
          jsDateIso ((natOfDigits m.m3 : Int) + (if natOfDigits m.m3 < 100 then 2000 else 0))
            ((natOfDigits m.m1 : Int) - 1) (natOfDigits m.m2)) := by
  obtain ⟨s1, s2, hs1, hs2, hm0eq⟩ := hm0
  have hv1 : natOfDigits m.m1 < 100 := by
    have := natOfDigits_lt m.m1 h1.2.2
    calc natOfDigits m.m1 < 10 ^ m.m1.length := this
      _ ≤ 10 ^ 2 := Nat.pow_le_pow_right (by norm_num) h1.2.1
      _ = 100 := by norm_num
  have hv2 : natOfDigits m.m2 < 100 := by
    have := natOfDigits_lt m.m2 h2.2.2
    calc natOfDigits m.m2 < 10 ^ m.m2.length := this
      _ ≤ 10 ^ 2 := Nat.pow_le_pow_right (by norm_num) h2.2.1
      _ = 100 := by norm_num
  have hv3 : natOfDigits m.m3 < 10000 := by
    have := natOfDigits_lt m.m3 h3.2.2
    calc natOfDigits m.m3 < 10 ^ m.m3.length := this
      _ ≤ 10 ^ 4 := Nat.pow_le_pow_right (by norm_num) h3.2.1
      _ = 10000 := by norm_num
  have hcond : (startsWithL "20".data m.m0 = true) ↔ m.m1 = ['2', '0'] := by
    rw [hm0eq, List.append_assoc, List.cons_append]
    exact m0_startsWith20 m.m1 s1 (m.m2 ++ s2 :: m.m3) h1.1 h1.2.1 hs1
  have hlen4 : (m.m1.length = 4) = False := by
    have := h1.2.1
    simp only [eq_iff_iff, iff_false]
    omega
  have hA : jsDateIso (natOfDigits m.m1) ((natOfDigits m.m2 : Int) - 1) (natOfDigits m.m3)
      = some (isoDate (jsMakeDate (natOfDigits m.m1) ((natOfDigits m.m2 : Int) - 1)
          (natOfDigits m.m3))) :=
    jsDateIso_some _ _ _ (by omega) (by omega) (by omega) (by omega) (by omega) (by omega)
  have hB : jsDateIso ((natOfDigits m.m3 : Int) + (if natOfDigits m.m3 < 100 then 2000 else 0))
        ((natOfDigits m.m1 : Int) - 1) (natOfDigits m.m2)
      = some (isoDate (jsMakeDate
          ((natOfDigits m.m3 : Int) + (if natOfDigits m.m3 < 100 then 2000 else 0))
          ((natOfDigits m.m1 : Int) - 1) (natOfDigits m.m2))) := by
    refine jsDateIso_some _ _ _ ?_ ?_ (by omega) (by omega) (by omega) (by omega)
    · split_ifs <;> omega
    · split_ifs with hsmall <;> omega
  rw [numericHandler]
  by_cases hc : m.m1 = ['2', '0']
  · rw [if_pos (by simp [hcond.mpr hc])]
    rw [if_pos hc, hA]
    simp
  · have hsw : startsWithL "20".data m.m0 = false := by
      cases hsw' : startsWithL "20".data m.m0
      · rfl
      · exact absurd (hcond.mp hsw') hc
    rw [if_neg (by simp [hsw, hlen4])]
    rw [if_neg hc, hB]
    simp

/-- C6 is false as stated: the claim's branch policy reads the
year-looking token `match[3]`, but the code tests `match[0]` (the full
match).  On `"15/01/2024"` — year token 4 digits beginning `20` — the
claim's policy takes the year-first branch while the code takes
month/day/year, and the two produce different dates. -/
theorem spec_numeric_date_policy_counterexample :
    parseDate "15/01/2024" ≠ claimParseDate "15/01/2024" := by
  decide

/-- C6 (amended).  For an input whose first numeric-date match comes from
pattern 1, the year-first branch is taken exactly when the *full matched
text* starts with `"20"`, i.e. when the first (day-position) token is
`20` — never because the year token looks like a year; otherwise the
match is read month/day/year with 2-digit years incremented by 2000.
Construction never falls through: JS date rollover normalizes any
out-of-range month/day, so the parse always succeeds. -/
theorem spec_numeric_date_policy_amended (s : String) (m : NumDateMatch)
    (h : findFirst pat1At s.data = some m) :
    (parseDate s).isSome = true ∧
    parseDate s =
      (if m.m1 = ['2', '0'] then
        jsDateIso (natOfDigits m.m1) ((natOfDigits m.m2 : Int) - 1) (natOfDigits m.m3)
      else
        jsDateIso ((natOfDigits m.m3 : Int) + (if natOfDigits m.m3 < 100 then 2000 else 0))
          ((natOfDigits m.m1 : Int) - 1) (natOfDigits m.m2)) := by
  obtain ⟨t, hpt⟩ := findFirst_eq_some _ _ _ h
  obtain ⟨h1, h2, h3, hm0⟩ := pat1At_some t m hpt
  obtain ⟨hsome, heq⟩ := numericHandler_pat1 m h1 h2 h3 hm0
  have hpd : parseDate s = numericHandler m := by
    rw [parseDate, h]
    cases hnm : numericHandler m with
    | some v => simp [Option.orElse, hnm]
    | none =>
      rw [hnm] at hsome
      simp at hsome
  exact ⟨by rw [hpd]; exact hsome, by rw [hpd]; exact heq⟩

theorem spec_numeric_date_policy_amended_witness :
    (parseDate "Date: 5/6/2024").isSome = true ∧
      parseDate "Date: 5/6/2024" = some "2024-05-06" := by
  have h := spec_numeric_date_policy_amended "Date: 5/6/2024"
    ⟨"5/6/2024".data, "5".data, "6".data, "2024".data⟩ (by decide)
  refine ⟨h.1, ?_⟩
  rw [h.2]
  decide

/-- C3 is false as stated: `"Date: 15/01/2024"` is read month/day/year
(month 15 rolls over), yielding `"2025-03-01"`, not the day/month/year
reading `"2024-01-15"`. -/
theorem spec_date_ambiguity_counterexample :
    (parseReceiptData "2026-10-12" 0 "Date: 15/01/2024").purchase_date ≠ "2024-01-15" := by
  decide

/-- C3 (amended).  For every input whose first date-pattern match is
`15/01/2024`, the parser applies the month/day/year reading with JS
rollover (month 15 → March of the following year) and returns
`purchase_date == "2025-03-01"`. -/
theorem spec_date_ambiguity_amended (today : String) (now : Nat) (s : String)
    (h : findFirst pat1At s.data
        = some ⟨"15/01/2024".data, "15".data, "01".data, "2024".data⟩) :
    (parseReceiptData today now s).purchase_date = "2025-03-01" := by
  have hd : parseDate s = some "2025-03-01" := by
    rw [parseDate, h]
    rw [show Option.bind
        (some (⟨"15/01/2024".data, "15".data, "01".data, "2024".data⟩ : NumDateMatch))
        numericHandler = some "2025-03-01" from by decide]
    rfl
  show jsOrStr (parseDate s) today = _
  rw [hd]
  rfl

theorem spec_date_ambiguity_amended_witness :
    (parseReceiptData "2026-10-12" 0 "Date: 15/01/2024").purchase_date = "2025-03-01" :=
  spec_date_ambiguity_amended "2026-10-12" 0 "Date: 15/01/2024" (by decide)

end Ocr
